import Mathlib

/-!
Shallow embedding of `src/misis.py`: a composite object model (addresses,
partitions, hardware components, computers, networks, generic collections)
with recursive ASCII-tree rendering (`print_me`), deep cloning (`clone`),
linear search (`find`, `find_computer`) and a `__str__` conversion.

Python object identity (the default `==` and the `is not` of cloning) is
modelled by an explicit `oid : Nat` field on every object; rendering and
all other observable behaviour ignore `oid`.  Python `int` is modelled by
`Int`, Python strings by `String`, the `StringIO` sink by a `String`
accumulator.  All source operations are total on well-typed inputs, so the
embedded functions are plain total functions.
-/

set_option maxHeartbeats 1000000
set_option maxRecDepth 100000

/-- `"\\-" if is_last else "+-"` — the connector glyph every `print_me`
in `src/misis.py` computes from its `is_last` argument. -/
def connector (is_last : Bool) : String :=
  if is_last then "\\-" else "+-"

/-- The flag `i == len(items) - 1` that every enumeration loop in
`src/misis.py` passes to the `i`-th child as its `is_last` argument. -/
def isLastFlag (i len : Nat) : Bool :=
  i == len - 1

/-- `prefix + ("  " if is_last else "| ")` — the prefix extension computed
by `Computer.print_me` and `Disk.print_me` before recursing. -/
def childPfx (pfx : String) (is_last : Bool) : String :=
  pfx ++ (if is_last then "  " else "| ")

/-- Python whitespace as stripped by `str.strip()`: exactly the
characters with `str.isspace()` true, per CPython's Unicode whitespace
table — the ASCII controls `\t \n \v \f \r` and space, the
separators `\x1c`-`\x1f`, NEL `\x85`, NBSP `\xa0`, the Ogham space
mark `\u1680`, the `\u2000`-`\u200a` spaces, the line and paragraph
separators `\u2028` and `\u2029`, the narrow NBSP `\u202f`, the medium
mathematical space `\u205f`, and the ideographic space `\u3000`. -/
def isPyWs (c : Char) : Bool :=
  c == ' ' || c == '\t' || c == '\n' || c == '\x0b' || c == '\x0c' ||
  c == '\r' || c == '\x1c' || c == '\x1d' || c == '\x1e' || c == '\x1f' ||
  c == '\x85' || c == '\xa0' || c == '\u1680' || c == '\u2000' ||
  c == '\u2001' || c == '\u2002' || c == '\u2003' || c == '\u2004' ||
  c == '\u2005' || c == '\u2006' || c == '\u2007' || c == '\u2008' ||
  c == '\u2009' || c == '\u200a' || c == '\u2028' || c == '\u2029' ||
  c == '\u202f' || c == '\u205f' || c == '\u3000'

/-- `str.strip()` on the character list: drop whitespace from both ends. -/
def pyStripList (l : List Char) : List Char :=
  ((l.dropWhile isPyWs).reverse.dropWhile isPyWs).reverse

/-- Python's `s.strip()` used by `Printable.__str__` (line 19). -/
def pyStrip (s : String) : String :=
  String.mk (pyStripList s.data)

/-- Number of lines of an already-stripped text (no trailing newline). -/
def numLines (s : String) : Nat :=
  s.data.count '\n' + 1

/- ---------------------------------------------------------------- -/
/- Data model (classes of `src/misis.py`, lines 55-211).             -/
/- ---------------------------------------------------------------- -/

/-- `class Address` (line 55): wraps one address string. -/
structure Address where
  oid : Nat
  address : String
  deriving DecidableEq

/-- `class Partition` (line 69): a standalone printable partition node. -/
structure Partition where
  oid : Nat
  size : Int
  name : String
  deriving DecidableEq

/-- `class Component` and its variants `CPU`, `Memory`, `Disk`
(lines 50-146).  `numeric_val` is the shared base-class attribute; a
disk's partitions are the `(size, name)` tuples of its `partitions`
list (line 96). -/
inductive Component where
  | cpu (oid : Nat) (cores : Int) (numeric_val : Int)
  | memory (oid : Nat) (numeric_val : Int)
  | disk (oid : Nat) (storage_type : Int) (numeric_val : Int)
      (partitions : List (Int × String))
  deriving DecidableEq

/-- `Disk.SSD = 0` (line 85). -/
def Disk.SSD : Int := 0

/-- `Disk.MAGNETIC = 1` (line 86). -/
def Disk.MAGNETIC : Int := 1

/-- `class Computer` (line 149): a name, owned addresses, owned components. -/
structure Computer where
  oid : Nat
  name : String
  addresses : List Address
  components : List Component
  deriving DecidableEq

/-- `class Network` (line 184): a name and owned computers. -/
structure Network where
  oid : Nat
  name : String
  computers : List Computer
  deriving DecidableEq

/-- `class BasicCollection` (line 22): a generic owned list of printable
items; the item operations are passed explicitly where needed. -/
structure BasicCollection (α : Type) where
  oid : Nat
  items : List α
  deriving DecidableEq

/- ---------------------------------------------------------------- -/
/- Rendering (`print_me` methods).                                   -/
/- ---------------------------------------------------------------- -/

/-- The loop `for i, item in enumerate(items): item.print_me(os, pfx,
i == len(items) - 1)` shared by `BasicCollection.print_me` (line 45),
`Computer.print_me` (line 173) and `Network.print_me` (line 204):
renders the items of a list, threading the running index `i` against the
total length `len`. -/
def printItems {α : Type} (pr : α → String → Bool → String) :
    List α → Nat → Nat → String → String
  | [], _, _, _ => ""
  | x :: rest, i, len, pfx =>
      pr x pfx (isLastFlag i len) ++ printItems pr rest (i + 1) len pfx

/-- `Address.print_me` (lines 60-62). -/
def Address.print_me (a : Address) (pfx : String) (is_last : Bool) : String :=
  pfx ++ connector is_last ++ a.address ++ "\n"

/-- `Partition.print_me` (lines 75-77): `[<name>]: <size> GiB`. -/
def Partition.print_me (p : Partition) (pfx : String) (is_last : Bool) : String :=
  pfx ++ connector is_last ++ "[" ++ p.name ++ "]: " ++ toString p.size ++ " GiB\n"

/-- The inline partition loop of `Disk.print_me` (lines 104-108): each
`(size, name)` tuple is written as one row labelled by its index `i`. -/
def Disk.printPartitions :
    List (Int × String) → Nat → Nat → String → String
  | [], _, _, _ => ""
  | (size, name) :: rest, i, len, npfx =>
      npfx ++ connector (isLastFlag i len) ++ "[" ++ toString i ++ "]: " ++
        toString size ++ " GiB, " ++ name ++ "\n" ++
        Disk.printPartitions rest (i + 1) len npfx

/-- `CPU.print_me` (lines 125-127), `Memory.print_me` (lines 140-142) and
`Disk.print_me` (lines 100-108). -/
def Component.print_me (c : Component) (pfx : String) (is_last : Bool) : String :=
  match c with
  | .cpu _ cores nv =>
      pfx ++ connector is_last ++ "CPU, " ++ toString cores ++ " cores @ " ++
        toString nv ++ "MHz\n"
  | .memory _ nv =>
      pfx ++ connector is_last ++ "Memory, " ++ toString nv ++ " MiB\n"
  | .disk _ st nv parts =>
      pfx ++ connector is_last ++ (if st = Disk.SSD then "SSD" else "HDD") ++
        ", " ++ toString nv ++ " GiB\n" ++
        Disk.printPartitions parts 0 parts.length (childPfx pfx is_last)

/-- The heterogeneous elements of `items = self.addresses + self.components`
in `Computer.print_me` (line 172). -/
inductive CompItem where
  | addr (a : Address)
  | comp (c : Component)
  deriving DecidableEq

/-- Dispatch of `item.print_me` over the combined list (line 174). -/
def CompItem.print_me (x : CompItem) (pfx : String) (is_last : Bool) : String :=
  match x with
  | .addr a => a.print_me pfx is_last
  | .comp c => c.print_me pfx is_last

/-- The combined child list `self.addresses + self.components` (line 172). -/
def Computer.items (cp : Computer) : List CompItem :=
  cp.addresses.map CompItem.addr ++ cp.components.map CompItem.comp

/-- `Computer.print_me` (lines 168-174): header line, then the combined
addresses-then-components list at the extended prefix. -/
def Computer.print_me (cp : Computer) (pfx : String) (is_last : Bool) : String :=
  pfx ++ connector is_last ++ "Host: " ++ cp.name ++ "\n" ++
    printItems CompItem.print_me cp.items 0 cp.items.length (childPfx pfx is_last)

/-- `Network.print_me` (lines 202-205): unprefixed header, then each
computer at prefix `""`; the network's own `pfx`/`is_last` arguments are
ignored by the source. -/
def Network.print_me (net : Network) (_pfx : String) (_is_last : Bool) : String :=
  "Network: " ++ net.name ++ "\n" ++
    printItems Computer.print_me net.computers 0 net.computers.length ""

/-- `BasicCollection.print_me` (lines 45-47): pure pass-through at the
same prefix. -/
def BasicCollection.print_me {α : Type} (pr : α → String → Bool → String)
    (col : BasicCollection α) (pfx : String) (_is_last : Bool) : String :=
  printItems pr col.items 0 col.items.length pfx

/- ---------------------------------------------------------------- -/
/- `__str__` (lines 16-19): render with defaults, then `strip()`.     -/
/- ---------------------------------------------------------------- -/

/-- `Printable.__str__` for a `Network` value. -/
def Network.str (net : Network) : String :=
  pyStrip (net.print_me "" true)

/-- `Printable.__str__` for an `Address` value. -/
def Address.str (a : Address) : String :=
  pyStrip (a.print_me "" true)

/- ---------------------------------------------------------------- -/
/- Builders (`add_*` methods, appending in insertion order).         -/
/- ---------------------------------------------------------------- -/

/-- `Computer.add_address` (lines 156-160), node form. -/
def Computer.add_address (cp : Computer) (a : Address) : Computer :=
  { cp with addresses := cp.addresses ++ [a] }

/-- `Computer.add_component` (lines 163-165). -/
def Computer.add_component (cp : Computer) (c : Component) : Computer :=
  { cp with components := cp.components ++ [c] }

/-- `Network.add_computer` (lines 190-192). -/
def Network.add_computer (net : Network) (cp : Computer) : Network :=
  { net with computers := net.computers ++ [cp] }

/-- `Disk.add_partition` (lines 95-97); only the disk variant defines it
in the source, the other variants are returned unchanged. -/
def Component.add_partition (c : Component) (size : Int) (name : String) :
    Component :=
  match c with
  | .disk o st nv ps => .disk o st nv (ps ++ [(size, name)])
  | other => other

/-- `BasicCollection.add` (lines 27-29). -/
def BasicCollection.add {α : Type} (col : BasicCollection α) (elem : α) :
    BasicCollection α :=
  { col with items := col.items ++ [elem] }

/- ---------------------------------------------------------------- -/
/- Search (`find`, `find_computer`).                                 -/
/- ---------------------------------------------------------------- -/

/-- The loop of `BasicCollection.find` (lines 32-36): first item with
`item == elem`, else `None`; the Python `==` is passed in as `eqf`. -/
def findList {α : Type} (eqf : α → α → Bool) : List α → α → Option α
  | [], _ => none
  | item :: rest, elem =>
      if eqf item elem then some item else findList eqf rest elem

/-- `BasicCollection.find` (lines 32-36). -/
def BasicCollection.find {α : Type} (eqf : α → α → Bool)
    (col : BasicCollection α) (elem : α) : Option α :=
  findList eqf col.items elem

/-- Python `==` on `Address` values: `Address` defines no `__eq__`, so the
default object identity applies — equal iff the same object (`oid`). -/
def pyEqAddress (a b : Address) : Bool :=
  a.oid == b.oid

/-- The loop of `Network.find_computer` (lines 195-199). -/
def findComputerList : List Computer → String → Option Computer
  | [], _ => none
  | comp :: rest, name =>
      if comp.name == name then some comp else findComputerList rest name

/-- `Network.find_computer` (lines 195-199): first computer whose `name`
equals the argument (string value equality in Python), else `None`. -/
def Network.find_computer (net : Network) (name : String) : Option Computer :=
  findComputerList net.computers name

/- ---------------------------------------------------------------- -/
/- Cloning (`clone` methods).  Each Python object construction        -/
/- allocates a fresh id: `clone` threads an id counter `ctr`, every    -/
/- constructed object takes the next id, mirroring allocation order.  -/
/- ---------------------------------------------------------------- -/

/-- `Address.clone` (lines 65-66): `Address(self.address)`. -/
def Address.clone (a : Address) (ctr : Nat) : Address × Nat :=
  (⟨ctr, a.address⟩, ctr + 1)

/-- `Partition.clone` (lines 80-81): `Partition(self.size, self.name)`. -/
def Partition.clone (p : Partition) (ctr : Nat) : Partition × Nat :=
  (⟨ctr, p.size, p.name⟩, ctr + 1)

/-- `CPU.clone` (130-131), `Memory.clone` (145-146), `Disk.clone`
(111-115); the disk rebuilds its partitions by `add_partition` over the
source tuples. -/
def Component.clone : Component → Nat → Component × Nat
  | .cpu _ cores nv, ctr => (.cpu ctr cores nv, ctr + 1)
  | .memory _ nv, ctr => (.memory ctr nv, ctr + 1)
  | .disk _ st nv ps, ctr =>
      (ps.foldl (fun d p => d.add_partition p.1 p.2) (.disk ctr st nv []),
        ctr + 1)

/-- The list comprehension `[item.clone() for item in ...]` used by every
composite `clone`, threading the id counter left to right. -/
def cloneList {α : Type} (f : α → Nat → α × Nat) :
    List α → Nat → List α × Nat
  | [], ctr => ([], ctr)
  | x :: rest, ctr =>
      let (x', ctr') := f x ctr
      let (rest', ctr'') := cloneList f rest ctr'
      (x' :: rest', ctr'')

/-- `Computer.clone` (lines 177-181): allocate `Computer(self.name)`,
then clone the addresses, then the components. -/
def Computer.clone (cp : Computer) (ctr : Nat) : Computer × Nat :=
  let (as', ctr1) := cloneList Address.clone cp.addresses (ctr + 1)
  let (cs', ctr2) := cloneList Component.clone cp.components ctr1
  (⟨ctr, cp.name, as', cs'⟩, ctr2)

/-- `Network.clone` (lines 208-211). -/
def Network.clone (net : Network) (ctr : Nat) : Network × Nat :=
  let (cs', ctr1) := cloneList Computer.clone net.computers (ctr + 1)
  (⟨ctr, net.name, cs'⟩, ctr1)

/-- `BasicCollection.clone` (lines 39-42): a new empty collection, then
deep-cloned items in order. -/
def BasicCollection.clone {α : Type} (f : α → Nat → α × Nat)
    (col : BasicCollection α) (ctr : Nat) : BasicCollection α × Nat :=
  let (its, ctr1) := cloneList f col.items (ctr + 1)
  (⟨ctr, its⟩, ctr1)

/- ---------------------------------------------------------------- -/
/- Object-id sets of a subtree (for identity / sharing statements).   -/
/- ---------------------------------------------------------------- -/

/-- The object id of a component. -/
def Component.oid : Component → Nat
  | .cpu o _ _ => o
  | .memory o _ => o
  | .disk o _ _ _ => o

/-- All object ids owned by a computer's subtree. -/
def Computer.oids (cp : Computer) : List Nat :=
  cp.oid :: (cp.addresses.map Address.oid ++ cp.components.map Component.oid)

/-- All object ids owned by a network's subtree. -/
def Network.oids (net : Network) : List Nat :=
  net.oid :: (net.computers.map Computer.oids).flatten

/-- All object ids owned by a collection (item ids via `g`). -/
def BasicCollection.oids {α : Type} (g : α → List Nat)
    (col : BasicCollection α) : List Nat :=
  col.oid :: (col.items.map g).flatten

/- ---------------------------------------------------------------- -/
/- A sum of every concrete `Printable` node type, for the claims that -/
/- quantify over all node types at once.                              -/
/- ---------------------------------------------------------------- -/

/-- Any node of the object model. -/
inductive AnyNode where
  | ofAddress (a : Address)
  | ofPartition (p : Partition)
  | ofComponent (c : Component)
  | ofComputer (cp : Computer)
  | ofNetwork (net : Network)
  deriving DecidableEq

/-- Polymorphic `print_me` dispatch. -/
def AnyNode.print_me (n : AnyNode) (pfx : String) (is_last : Bool) : String :=
  match n with
  | .ofAddress a => a.print_me pfx is_last
  | .ofPartition p => p.print_me pfx is_last
  | .ofComponent c => c.print_me pfx is_last
  | .ofComputer cp => cp.print_me pfx is_last
  | .ofNetwork net => net.print_me pfx is_last

/-- Polymorphic `clone` dispatch. -/
def AnyNode.clone : AnyNode → Nat → AnyNode × Nat
  | .ofAddress a, ctr =>
      let (a', c') := a.clone ctr; (.ofAddress a', c')
  | .ofPartition p, ctr =>
      let (p', c') := p.clone ctr; (.ofPartition p', c')
  | .ofComponent c, ctr =>
      let (c', ctr') := c.clone ctr; (.ofComponent c', ctr')
  | .ofComputer cp, ctr =>
      let (cp', c') := cp.clone ctr; (.ofComputer cp', c')
  | .ofNetwork net, ctr =>
      let (net', c') := net.clone ctr; (.ofNetwork net', c')

/-- The root object id of any node. -/
def AnyNode.oid : AnyNode → Nat
  | .ofAddress a => a.oid
  | .ofPartition p => p.oid
  | .ofComponent c => c.oid
  | .ofComputer cp => cp.oid
  | .ofNetwork net => net.oid

/-- All object ids of any node's subtree. -/
def AnyNode.oids : AnyNode → List Nat
  | .ofAddress a => [a.oid]
  | .ofPartition p => [p.oid]
  | .ofComponent c => [c.oid]
  | .ofComputer cp => cp.oids
  | .ofNetwork net => net.oids

/-- `Printable.__str__` for any node. -/
def AnyNode.str (n : AnyNode) : String :=
  pyStrip (n.print_me "" true)

/- ---------------------------------------------------------------- -/
/- Sink-threaded translation of `print_me` (the source signature      -/
/- `print_me(self, os, prefix, is_last)`): the sink `os` is an        -/
/- accumulator that `os.write` appends to, and each method returns    -/
/- the node it was called on, rebuilt from the fields and child       -/
/- results it actually used — the source never assigns to `self`.     -/
/- ---------------------------------------------------------------- -/

/-- Sink-threaded child loop: threads `os` through the children in
order and collects the returned child nodes. -/
def printItemsSt {α : Type} (prSt : α → String → String → Bool → α × String) :
    List α → Nat → Nat → String → String → List α × String
  | [], _, _, os, _ => ([], os)
  | x :: rest, i, len, os, pfx =>
      let (x', os') := prSt x os pfx (isLastFlag i len)
      let (rest', os'') := printItemsSt prSt rest (i + 1) len os' pfx
      (x' :: rest', os'')

/-- Sink-threaded `Address.print_me`: one `os.write`. -/
def Address.print_st (a : Address) (os pfx : String) (is_last : Bool) :
    Address × String :=
  (⟨a.oid, a.address⟩, os ++ (pfx ++ connector is_last ++ a.address ++ "\n"))

/-- Sink-threaded `Partition.print_me`: one `os.write`. -/
def Partition.print_st (p : Partition) (os pfx : String) (is_last : Bool) :
    Partition × String :=
  (⟨p.oid, p.size, p.name⟩,
    os ++ (pfx ++ connector is_last ++ "[" ++ p.name ++ "]: " ++
      toString p.size ++ " GiB\n"))

/-- Sink-threaded partition loop of `Disk.print_me`: appends one row per
tuple, the tuples themselves untouched. -/
def Disk.printPartitionsSt :
    List (Int × String) → Nat → Nat → String → String →
      List (Int × String) × String
  | [], _, _, os, _ => ([], os)
  | (size, name) :: rest, i, len, os, npfx =>
      let os' := os ++ (npfx ++ connector (isLastFlag i len) ++ "[" ++
        toString i ++ "]: " ++ toString size ++ " GiB, " ++ name ++ "\n")
      let (rest', os'') := Disk.printPartitionsSt rest (i + 1) len os' npfx
      ((size, name) :: rest', os'')

/-- Sink-threaded `Component.print_me`. -/
def Component.print_st (c : Component) (os pfx : String) (is_last : Bool) :
    Component × String :=
  match c with
  | .cpu o cores nv =>
      (.cpu o cores nv, os ++ (pfx ++ connector is_last ++ "CPU, " ++
        toString cores ++ " cores @ " ++ toString nv ++ "MHz\n"))
  | .memory o nv =>
      (.memory o nv,
        os ++ (pfx ++ connector is_last ++ "Memory, " ++ toString nv ++ " MiB\n"))
  | .disk o st nv parts =>
      let os1 := os ++ (pfx ++ connector is_last ++
        (if st = Disk.SSD then "SSD" else "HDD") ++ ", " ++ toString nv ++ " GiB\n")
      let (parts', os2) :=
        Disk.printPartitionsSt parts 0 parts.length os1 (childPfx pfx is_last)
      (.disk o st nv parts', os2)

/-- Sink-threaded dispatch over the combined child list. -/
def CompItem.print_st (x : CompItem) (os pfx : String) (is_last : Bool) :
    CompItem × String :=
  match x with
  | .addr a => let (a', os') := a.print_st os pfx is_last; (.addr a', os')
  | .comp c => let (c', os') := c.print_st os pfx is_last; (.comp c', os')

/-- Sink-threaded `Computer.print_me`: header write, then the loop over
`addresses + components` (addresses first, index continuing through the
components), the computer rebuilt from the returned children. -/
def Computer.print_st (cp : Computer) (os pfx : String) (is_last : Bool) :
    Computer × String :=
  let len := cp.addresses.length + cp.components.length
  let os1 := os ++ (pfx ++ connector is_last ++ "Host: " ++ cp.name ++ "\n")
  let npfx := childPfx pfx is_last
  let (as', os2) := printItemsSt Address.print_st cp.addresses 0 len os1 npfx
  let (cs', os3) :=
    printItemsSt Component.print_st cp.components cp.addresses.length len os2 npfx
  (⟨cp.oid, cp.name, as', cs'⟩, os3)

/-- Sink-threaded `Network.print_me`. -/
def Network.print_st (net : Network) (os _pfx : String) (_is_last : Bool) :
    Network × String :=
  let os1 := os ++ ("Network: " ++ net.name ++ "\n")
  let (cs', os2) :=
    printItemsSt Computer.print_st net.computers 0 net.computers.length os1 ""
  (⟨net.oid, net.name, cs'⟩, os2)

/-- Sink-threaded `BasicCollection.print_me`. -/
def BasicCollection.print_st {α : Type}
    (prSt : α → String → String → Bool → α × String)
    (col : BasicCollection α) (os pfx : String) (_is_last : Bool) :
    BasicCollection α × String :=
  let (its', os') := printItemsSt prSt col.items 0 col.items.length os pfx
  (⟨col.oid, its'⟩, os')

/-- Sink-threaded polymorphic `print_me`. -/
def AnyNode.print_st (n : AnyNode) (os pfx : String) (is_last : Bool) :
    AnyNode × String :=
  match n with
  | .ofAddress a => let (a', os') := a.print_st os pfx is_last; (.ofAddress a', os')
  | .ofPartition p =>
      let (p', os') := p.print_st os pfx is_last; (.ofPartition p', os')
  | .ofComponent c =>
      let (c', os') := c.print_st os pfx is_last; (.ofComponent c', os')
  | .ofComputer cp =>
      let (cp', os') := cp.print_st os pfx is_last; (.ofComputer cp', os')
  | .ofNetwork net =>
      let (net', os') := net.print_st os pfx is_last; (.ofNetwork net', os')

/- ---------------------------------------------------------------- -/
/- Call trace of a rendering started at a `Network` root: one entry   -/
/- per node the traversal calls (below the root), recording the       -/
/- lastness flags of its proper ancestors below the root together     -/
/- with the prefix it is called with.  Mirrors the recursion of       -/
/- `Network.print_me` / `Computer.print_me` / `Disk.print_me`.        -/
/- ---------------------------------------------------------------- -/

/-- Entries contributed by one child of a computer: the child itself at
its call prefix, plus, for a disk, one entry per inline partition row at
the disk-extended prefix. -/
def CompItem.entries (x : CompItem) (flags : List Bool) (pfx : String)
    (is_last : Bool) : List (List Bool × String) :=
  (flags, pfx) ::
    match x with
    | .comp (.disk _ _ _ parts) =>
        parts.map fun _ => (flags ++ [is_last], childPfx pfx is_last)
    | _ => []

/-- Entries of a computer's child loop. -/
def itemsEntries : List CompItem → Nat → Nat → List Bool → String →
    List (List Bool × String)
  | [], _, _, _, _ => []
  | x :: rest, i, len, flags, pfx =>
      x.entries flags pfx (isLastFlag i len) ++
        itemsEntries rest (i + 1) len flags pfx

/-- Entries of one computer: the computer itself at its call prefix, then
its children at the extended prefix. -/
def Computer.entries (cp : Computer) (flags : List Bool) (pfx : String)
    (is_last : Bool) : List (List Bool × String) :=
  (flags, pfx) ::
    itemsEntries cp.items 0 cp.items.length (flags ++ [is_last])
      (childPfx pfx is_last)

/-- Entries of the network's computer loop: every computer is called with
prefix `""` and has no proper ancestor below the root. -/
def computersEntries : List Computer → Nat → Nat → List (List Bool × String)
  | [], _, _ => []
  | cp :: rest, i, len =>
      cp.entries [] "" (isLastFlag i len) ++ computersEntries rest (i + 1) len

/-- The call trace of rendering `net` from the root. -/
def Network.entries (net : Network) : List (List Bool × String) :=
  computersEntries net.computers 0 net.computers.length

/- ---------------------------------------------------------------- -/
/- Definitions following the spec's words, for comparison.            -/
/- ---------------------------------------------------------------- -/

/-- Modelled from the spec (§4.1 `toDisplayString`): return the rendered
text with only the final trailing newline stripped, nothing else. -/
def specToDisplayString (s : String) : String :=
  match s.data.getLast? with
  | some c => if c == '\n' then String.mk s.data.dropLast else s
  | none => s

/-- Modelled from the spec (§8 prefix widening): a node's prefix is one
two-character segment per proper ancestor below the root, `"  "` for a
last ancestor and `"| "` for a non-last one, in root-to-leaf order. -/
def specAncestorPfx : List Bool → String
  | [] => ""
  | l :: rest => (if l then "  " else "| ") ++ specAncestorPfx rest

/- ---------------------------------------------------------------- -/
/- The §8 demo network, built exactly as `main` (lines 214-239) does, -/
/- object ids in Python allocation order.                             -/
/- ---------------------------------------------------------------- -/

/-- `Computer("server1.misis.ru")` with its address and components. -/
def server1 : Computer :=
  (((⟨1, "server1.misis.ru", [], []⟩ : Computer).add_address
      ⟨2, "192.168.1.1"⟩).add_component
      (.cpu 3 4 2500)).add_component (.memory 4 16000)

/-- `Computer("server2.misis.ru")` with its address, CPU and disk. -/
def server2 : Computer :=
  (((⟨5, "server2.misis.ru", [], []⟩ : Computer).add_address
      ⟨6, "10.0.0.1"⟩).add_component
      (.cpu 7 8 3200)).add_component
      (((Component.disk 8 Disk.MAGNETIC 2000 []).add_partition 500
          "system").add_partition 1500 "data")

/-- The `Network("MISIS network")` of `main`. -/
def demoNetwork : Network :=
  ((⟨0, "MISIS network", []⟩ : Network).add_computer server1).add_computer
    server2

/-- The §8 scenario text (what `print(n)` emits, final newline already
stripped by `__str__`). -/
def scenarioText : String :=
  "Network: MISIS network\n" ++
  "+-Host: server1.misis.ru\n" ++
  "| +-192.168.1.1\n" ++
  "| +-CPU, 4 cores @ 2500MHz\n" ++
  "| \\-Memory, 16000 MiB\n" ++
  "\\-Host: server2.misis.ru\n" ++
  "  +-10.0.0.1\n" ++
  "  +-CPU, 8 cores @ 3200MHz\n" ++
  "  \\-HDD, 2000 GiB\n" ++
  "    +-[0]: 500 GiB, system\n" ++
  "    \\-[1]: 1500 GiB, data"

/-- `s` has at least one character and its last character is not Python
whitespace (so `strip()` removes nothing from its right end). -/
def noTrailingPyWs (s : String) : Bool :=
  match s.data.getLast? with
  | some c => !isPyWs c
  | none => false

/-- `s` is nonempty text whose only boundary whitespace is one final
newline: first character non-whitespace, last character `'\n'`, and the
character before that final newline non-whitespace. -/
def onlyFinalNewline (s : String) : Bool :=
  match s.data.head?, s.data.dropLast.getLast?, s.data.getLast? with
  | some c0, some c1, some c2 => !isPyWs c0 && !isPyWs c1 && (c2 == '\n')
  | _, _, _ => false

/-- Contract of a `clone` operation under the id-counter model: the
counter never decreases, every object of the clone carries a fresh id
from the consumed counter range, and the clone renders exactly as the
original. -/
def CloneOk {α : Type} (f : α → Nat → α × Nat) (oidsF : α → List Nat)
    (pr : α → String → Bool → String) : Prop :=
  ∀ x ctr,
    ctr ≤ (f x ctr).2 ∧
    (∀ o ∈ oidsF (f x ctr).1, ctr ≤ o ∧ o < (f x ctr).2) ∧
    (∀ pfx l, pr (f x ctr).1 pfx l = pr x pfx l)

/- ================================================================ -/
/- Theorems.                                                         -/
/- ================================================================ -/

/-- C1 (counterexample): the §8 scenario output is not a ten-line text —
the stripped rendering of the demo network has eleven lines. -/
theorem c1_ten_lines_counterexample :
    numLines (Network.str demoNetwork) = 11 ∧
    numLines (Network.str demoNetwork) ≠ 10 := by
  decide

/-- C1 (amended): rendering the §8 demo network — "MISIS network" with
server1 (address 192.168.1.1, CPU(4,2500), Memory(16000)) and server2
(address 10.0.0.1, CPU(8,3200), MAGNETIC disk 2000 GiB with partitions
(500, system) and (1500, data)) — produces, character for character, the
eleven-line scenario text of §8: header `Network: MISIS network`,
server1's subtree with connectors `+- +- +- \-` and child prefix `| `,
then server2's subtree with child prefix `  ` and its disk partition rows
labelled `[0]` and `[1]` at prefix `    `. -/
theorem c1_scenario_render :
    Network.str demoNetwork = scenarioText ∧ numLines scenarioText = 11 := by
  decide

/-- C2: in every child loop of a composite (network computers, a
computer's combined addresses-then-components list, a disk's inline
partition rows, a collection's items), the `i`-th of `k` children
receives the flag `isLastFlag i k`, which yields connector `+-` for
positions `0..k-2` and `\-` for position `k-1`, also when `k = 1`; and
every child line starts with the inherited prefix followed by that
connector. -/
theorem c2_connector_positions :
    (∀ k i : Nat, i < k →
      (i < k - 1 → connector (isLastFlag i k) = "+-") ∧
      (i = k - 1 → connector (isLastFlag i k) = "\\-") ∧
      (k = 1 → connector (isLastFlag i k) = "\\-")) ∧
    (∀ (α : Type) (pr : α → String → Bool → String) (x : α) (rest : List α)
      (i len : Nat) (pfx : String),
      printItems pr (x :: rest) i len pfx =
        pr x pfx (isLastFlag i len) ++ printItems pr rest (i + 1) len pfx) ∧
    (∀ (size : Int) (nm : String) (rest : List (Int × String)) (i len : Nat)
      (npfx : String),
      Disk.printPartitions ((size, nm) :: rest) i len npfx =
        npfx ++ connector (isLastFlag i len) ++ "[" ++ toString i ++ "]: " ++
          toString size ++ " GiB, " ++ nm ++ "\n" ++
          Disk.printPartitions rest (i + 1) len npfx) ∧
    (∀ (x : CompItem) (pfx : String) (l : Bool),
      ∃ t, x.print_me pfx l = pfx ++ connector l ++ t) ∧
    (∀ (cp : Computer) (pfx : String) (l : Bool),
      ∃ t, cp.print_me pfx l = pfx ++ connector l ++ t) := by
  refine ⟨?_, ?_, ?_, ?_, ?_⟩
  · intro k i hik
    refine ⟨?_, ?_, ?_⟩
    · intro h
      have hne : i ≠ k - 1 := by omega
      simp [isLastFlag, connector, hne]
    · intro h
      simp [isLastFlag, connector, h]
    · intro h
      have hz : i = 0 := by omega
      subst h hz
      simp [isLastFlag, connector]
  · intro α pr x rest i len pfx
    rfl
  · intro size nm rest i len npfx
    rfl
  · intro x pfx l
    match x with
    | .addr a =>
        exact ⟨a.address ++ "\n", by
          simp [CompItem.print_me, Address.print_me, String.append_assoc]⟩
    | .comp (.cpu o cores nv) =>
        exact ⟨"CPU, " ++ toString cores ++ " cores @ " ++ toString nv ++ "MHz\n",
          by simp [CompItem.print_me, Component.print_me, String.append_assoc]⟩
    | .comp (.memory o nv) =>
        exact ⟨"Memory, " ++ toString nv ++ " MiB\n",
          by simp [CompItem.print_me, Component.print_me, String.append_assoc]⟩
    | .comp (.disk o st nv parts) =>
        exact ⟨(if st = Disk.SSD then "SSD" else "HDD") ++ ", " ++ toString nv ++
            " GiB\n" ++ Disk.printPartitions parts 0 parts.length (childPfx pfx l),
          by simp [CompItem.print_me, Component.print_me, String.append_assoc]⟩
  · intro cp pfx l
    exact ⟨"Host: " ++ cp.name ++ "\n" ++
        printItems CompItem.print_me cp.items 0 cp.items.length (childPfx pfx l),
      by simp [Computer.print_me, String.append_assoc]⟩

/-- C2 (witness): the connector rule evaluated at concrete positions:
first of two, last of two, and a single child. -/
theorem c2_connector_positions_witness :
    connector (isLastFlag 0 2) = "+-" ∧
    connector (isLastFlag 1 2) = "\\-" ∧
    connector (isLastFlag 0 1) = "\\-" :=
  ⟨(c2_connector_positions.1 2 0 (by decide)).1 (by decide),
   (c2_connector_positions.1 2 1 (by decide)).2.1 (by decide),
   (c2_connector_positions.1 1 0 (by decide)).2.2 (by decide)⟩

/-- C10: the standalone `Partition` node renders the single line
`<pfx><connector>[<name>]: <size> GiB` — the bracketed label is the
name, nothing follows the size — which differs from the
`[<index>]: <size> GiB, <name>` rows `Disk` prints for its inline
partition tuples, as the concrete comparison at (500, "system") shows. -/
theorem c10_partition_node_format :
    (∀ (p : Partition) (pfx : String) (l : Bool),
      p.print_me pfx l = pfx ++ connector l ++ "[" ++ p.name ++ "]: " ++
        toString p.size ++ " GiB\n") ∧
    (Partition.print_me ⟨0, 500, "system"⟩ "" true = "\\-[system]: 500 GiB\n") ∧
    (Disk.printPartitions [(500, "system")] 0 1 "" = "\\-[0]: 500 GiB, system\n") ∧
    (Partition.print_me ⟨0, 500, "system"⟩ "" true ≠
      Disk.printPartitions [(500, "system")] 0 1 "") :=
  ⟨fun _ _ _ => rfl, by decide, by decide, by decide⟩

/-- The `find_computer` loop returns `None` exactly when no computer in
the list bears the name. -/
theorem findComputerList_eq_none :
    ∀ (cs : List Computer) (name : String),
      findComputerList cs name = none ↔ ∀ cp ∈ cs, cp.name ≠ name := by
  intro cs
  induction cs with
  | nil => intro name; simp [findComputerList]
  | cons c rest ih =>
      intro name
      by_cases h : c.name = name
      · simp [findComputerList, h]
      · simp [findComputerList, h, ih]

/-- A `find_computer` hit is the first computer with the name: everything
strictly before it in insertion order has a different name. -/
theorem findComputerList_eq_some :
    ∀ (cs : List Computer) (name : String) (cp : Computer),
      findComputerList cs name = some cp →
      cp.name = name ∧
        ∃ l1 l2, cs = l1 ++ cp :: l2 ∧ ∀ c' ∈ l1, c'.name ≠ name := by
  intro cs
  induction cs with
  | nil => intro name cp h; simp [findComputerList] at h
  | cons c rest ih =>
      intro name cp h
      by_cases hc : c.name = name
      · have hcp : c = cp := by simpa [findComputerList, hc] using h
        subst hcp
        exact ⟨hc, [], rest, rfl, by simp⟩
      · have h' : findComputerList rest name = some cp := by
          simpa [findComputerList, hc] using h
        obtain ⟨h1, l1, l2, heq, hall⟩ := ih name cp h'
        refine ⟨h1, c :: l1, l2, by simp [heq], ?_⟩
        intro c' hc'
        rcases List.mem_cons.mp hc' with rfl | hmem
        · exact hc
        · exact hall c' hmem

/-- C6: `find_computer(name)` is a first-match linear scan in insertion
order — a hit is the first computer whose `name` field equals the query
and a miss is the explicit absence value `None` (never an exception, the
function is total); on the §8 network it returns the second computer for
"server2.misis.ru" and `None` for "nope". -/
theorem c6_find_computer :
    (∀ (net : Network) (name : String),
      (net.find_computer name = none ↔ ∀ cp ∈ net.computers, cp.name ≠ name) ∧
      (∀ cp, net.find_computer name = some cp →
        cp.name = name ∧
          ∃ l1 l2, net.computers = l1 ++ cp :: l2 ∧ ∀ c' ∈ l1, c'.name ≠ name)) ∧
    demoNetwork.find_computer "server2.misis.ru" = some server2 ∧
    demoNetwork.find_computer "nope" = none := by
  refine ⟨?_, by decide, by decide⟩
  intro net name
  exact ⟨findComputerList_eq_none net.computers name,
    fun cp => findComputerList_eq_some net.computers name cp⟩

/-- C6 (witness): the characterization applied to the demo network for an
absent name. -/
theorem c6_find_computer_witness :
    demoNetwork.find_computer "absent.host" = none :=
  (c6_find_computer.1 demoNetwork "absent.host").1.mpr (by decide)

/-- The `BasicCollection.find` loop returns `None` exactly when Python
`==` (passed as `eqf`) holds for no item. -/
theorem findList_eq_none {α : Type} (eqf : α → α → Bool) :
    ∀ (xs : List α) (x : α),
      findList eqf xs x = none ↔ ∀ y ∈ xs, eqf y x = false := by
  intro xs
  induction xs with
  | nil => intro x; simp [findList]
  | cons a rest ih =>
      intro x
      by_cases h : eqf a x = true
      · simp [findList, h]
      · have h' : eqf a x = false := by
          cases hb : eqf a x
          · rfl
          · exact absurd hb h
        simp [findList, h', ih]

/-- A `BasicCollection.find` hit is the first item matching under the
passed equality. -/
theorem findList_eq_some {α : Type} (eqf : α → α → Bool) :
    ∀ (xs : List α) (x y : α),
      findList eqf xs x = some y →
      eqf y x = true ∧ ∃ l1 l2, xs = l1 ++ y :: l2 ∧ ∀ z ∈ l1, eqf z x = false := by
  intro xs
  induction xs with
  | nil => intro x y h; simp [findList] at h
  | cons a rest ih =>
      intro x y h
      by_cases ha : eqf a x = true
      · have hy : a = y := by simpa [findList, ha] using h
        subst hy
        exact ⟨ha, [], rest, rfl, by simp⟩
      · have ha' : eqf a x = false := by
          cases hb : eqf a x
          · rfl
          · exact absurd hb ha
        have h' : findList eqf rest x = some y := by
          simpa [findList, ha'] using h
        obtain ⟨h1, l1, l2, heq, hall⟩ := ih x y h'
        refine ⟨h1, a :: l1, l2, by simp [heq], ?_⟩
        intro z hz
        rcases List.mem_cons.mp hz with rfl | hmem
        · exact ha'
        · exact hall z hmem

/-- C8 (counterexample): `find` does not use value equality for
`Address` — on a collection holding the address object `⟨1, "v"⟩`, `find`
applied to the freshly constructed, distinct address object `⟨2, "v"⟩`
carrying the same value `"v"` returns `None`, not the contained item. -/
theorem c8_find_counterexample :
    BasicCollection.find pyEqAddress ⟨0, [⟨1, "v"⟩]⟩ ⟨2, "v"⟩ = none ∧
    BasicCollection.find pyEqAddress ⟨0, [⟨1, "v"⟩]⟩ ⟨2, "v"⟩ ≠
      some ⟨1, "v"⟩ := by
  decide

/-- C8 (amended): `find(target)` is a first-match linear scan in
insertion order under Python `==`; for `Address`, which defines no
`__eq__`, that `==` is object identity, so a distinct same-valued address
is not found (`None`) while the identical object is found. -/
theorem c8_find_first_match :
    (∀ (α : Type) (eqf : α → α → Bool) (col : BasicCollection α) (x : α),
      (col.find eqf x = none ↔ ∀ y ∈ col.items, eqf y x = false) ∧
      (∀ y, col.find eqf x = some y →
        eqf y x = true ∧
          ∃ l1 l2, col.items = l1 ++ y :: l2 ∧ ∀ z ∈ l1, eqf z x = false)) ∧
    (∀ a b : Address, pyEqAddress a b = true ↔ a.oid = b.oid) ∧
    BasicCollection.find pyEqAddress ⟨0, [⟨1, "v"⟩]⟩ ⟨1, "v"⟩ = some ⟨1, "v"⟩ := by
  refine ⟨?_, ?_, by decide⟩
  · intro α eqf col x
    exact ⟨findList_eq_none eqf col.items x,
      fun y => findList_eq_some eqf col.items x y⟩
  · intro a b
    simp [pyEqAddress]

/-- C8 (witness): the first-match characterization applied to a concrete
collection and target with no identity match. -/
theorem c8_find_first_match_witness :
    BasicCollection.find pyEqAddress ⟨5, [⟨7, "w"⟩]⟩ ⟨9, "w"⟩ = none :=
  (c8_find_first_match.1 Address pyEqAddress ⟨5, [⟨7, "w"⟩]⟩ ⟨9, "w"⟩).1.mpr
    (by decide)

/-- `dropWhile` keeps a list whose first character is not whitespace. -/
theorem dropWhile_isPyWs_cons_false (c : Char) (l : List Char)
    (h : isPyWs c = false) : List.dropWhile isPyWs (c :: l) = c :: l := by
  rw [List.dropWhile_cons]
  simp [h]

/-- `strip()` on `t ++ "\n"` removes exactly the final newline when `t`
starts and ends with non-whitespace. -/
theorem pyStripList_concat_newline (t : List Char) (c0 c1 : Char)
    (hh : t.head? = some c0) (hw0 : isPyWs c0 = false)
    (hl : t.getLast? = some c1) (hw1 : isPyWs c1 = false) :
    pyStripList (t ++ ['\n']) = t := by
  have h1 : List.dropWhile isPyWs (t ++ ['\n']) = t ++ ['\n'] := by
    cases t with
    | nil => simp at hh
    | cons x xs =>
        have hx : x = c0 := by simpa using hh
        rw [List.cons_append, hx]
        exact dropWhile_isPyWs_cons_false c0 (xs ++ ['\n']) hw0
  have h2 : (t ++ ['\n']).reverse = '\n' :: t.reverse := by simp
  have h4 : List.dropWhile isPyWs t.reverse = t.reverse := by
    have hhr : t.reverse.head? = some c1 := by
      rw [List.head?_reverse]; exact hl
    cases hr : t.reverse with
    | nil => rw [hr] at hhr; simp at hhr
    | cons y ys =>
        rw [hr] at hhr
        have hy : y = c1 := by simpa using hhr
        rw [hy]
        exact dropWhile_isPyWs_cons_false c1 ys hw1
  have h3 : List.dropWhile isPyWs ('\n' :: t.reverse) =
      List.dropWhile isPyWs t.reverse := by
    rw [List.dropWhile_cons]
    have hnl : isPyWs '\n' = true := by decide
    rw [hnl]
    simp
  unfold pyStripList
  rw [h1, h2, h3, h4, List.reverse_reverse]

/-- String-level form: `strip()` of `t ++ "\n"` is `t` when `t` has
non-whitespace first and last characters. -/
theorem pyStrip_append_newline (t : String) (c0 c1 : Char)
    (hh : t.data.head? = some c0) (hw0 : isPyWs c0 = false)
    (hl : t.data.getLast? = some c1) (hw1 : isPyWs c1 = false) :
    pyStrip (t ++ "\n") = t := by
  unfold pyStrip
  have hd : (t ++ "\n").data = t.data ++ ['\n'] := by
    rw [String.data_append]
  rw [hd, pyStripList_concat_newline t.data c0 c1 hh hw0 hl hw1]

/-- When a rendered text's only boundary whitespace is its final newline,
`strip()` agrees with removing only that newline. -/
theorem pyStrip_eq_specToDisplayString (s : String)
    (h : onlyFinalNewline s = true) : pyStrip s = specToDisplayString s := by
  unfold onlyFinalNewline at h
  cases heq0 : s.data.head? with
  | none => rw [heq0] at h; simp at h
  | some c0 =>
  cases heq1 : s.data.dropLast.getLast? with
  | none => rw [heq0, heq1] at h; simp at h
  | some c1 =>
  cases heq2 : s.data.getLast? with
  | none => rw [heq0, heq1, heq2] at h; simp at h
  | some c2 =>
  rw [heq0, heq1, heq2] at h
  simp only [Bool.and_eq_true, Bool.not_eq_true', beq_iff_eq] at h
  obtain ⟨⟨h0, h1⟩, h2⟩ := h
  subst h2
  have hne : s.data ≠ [] := by
    intro hnil; rw [hnil] at heq2; simp at heq2
  have hg : s.data.getLast hne = '\n' := by
    have := List.getLast?_eq_getLast s.data hne
    rw [heq2] at this
    exact (Option.some.inj this).symm
  have hsplit : s.data.dropLast ++ ['\n'] = s.data := by
    have hx := List.dropLast_append_getLast hne
    rw [hg] at hx
    exact hx
  have hdne : s.data.dropLast ≠ [] := by
    intro hnil; rw [hnil] at heq1; simp at heq1
  obtain ⟨x, xs, hxx⟩ := List.exists_cons_of_ne_nil hdne
  have hx0 : x = c0 := by
    have hs2 : s.data = x :: (xs ++ ['\n']) := by
      rw [← hsplit, hxx, List.cons_append]
    rw [hs2] at heq0
    simpa using heq0
  have hh' : s.data.dropLast.head? = some c0 := by
    rw [hxx, hx0]
    rfl
  have hstrip : pyStripList (s.data.dropLast ++ ['\n']) = s.data.dropLast :=
    pyStripList_concat_newline s.data.dropLast c0 c1 hh' h0 heq1 h1
  unfold pyStrip specToDisplayString
  rw [heq2]
  simp only [beq_self_eq_true, if_true]
  conv_lhs => rw [← hsplit]
  rw [hstrip]

/-- C7 (counterexample): `__str__` does not equal the rendered text with
only the final newline removed — for the address object with value
`"a "` the rendering is `"\-a \n"`, removing only the newline leaves
`"\-a "`, but `__str__` returns `"\-a"`: `strip()` also removed the
trailing space. -/
theorem c7_str_counterexample :
    AnyNode.str (.ofAddress ⟨0, "a "⟩) ≠
      specToDisplayString (AnyNode.print_me (.ofAddress ⟨0, "a "⟩) "" true) := by
  decide

/-- C7 (amended): `__str__` renders with `prefix = ""` and
`is_last = True` and then strips all leading and trailing Python
whitespace; whenever the rendered text's only boundary whitespace is its
single final newline, this coincides with removing exactly that final
newline and nothing else. -/
theorem c7_str_strips_final_newline (n : AnyNode)
    (h : onlyFinalNewline (n.print_me "" true) = true) :
    n.str = specToDisplayString (n.print_me "" true) := by
  unfold AnyNode.str
  exact pyStrip_eq_specToDisplayString _ h

/-- C7 (witness): the amended statement evaluated on the §8 network. -/
theorem c7_str_strips_final_newline_witness :
    AnyNode.str (.ofNetwork demoNetwork) =
      specToDisplayString (AnyNode.print_me (.ofNetwork demoNetwork) "" true) :=
  c7_str_strips_final_newline (.ofNetwork demoNetwork) (by decide)

/-- C5 (counterexample): for the name `"a "` (trailing space) the
zero-computer network's string conversion is not exactly
`"Network: <name>"` — `strip()` also removes the name's trailing space,
yielding `"Network: a"` instead of `"Network: a "`. -/
theorem c5_empty_network_counterexample :
    Network.str ⟨0, "a ", []⟩ ≠ "Network: " ++ "a " := by
  decide

/-- C5 (amended): a zero-computer network always renders exactly the one
line `"Network: <name>\n"`; its string conversion equals
`"Network: <name>"` whenever the name's last character is not Python
whitespace (otherwise `strip()` removes more than the final newline); a
computer with no addresses and no components renders only its header
line `"<pfx><connector>Host: <name>\n"`; every operation is a total
function. -/
theorem c5_empty_render :
    (∀ (o : Nat) (name : String) (pfx : String) (l : Bool),
      Network.print_me ⟨o, name, []⟩ pfx l = "Network: " ++ name ++ "\n") ∧
    (∀ (o : Nat) (name : String), noTrailingPyWs name = true →
      Network.str ⟨o, name, []⟩ = "Network: " ++ name) ∧
    (∀ (cp : Computer), cp.addresses = [] → cp.components = [] →
      ∀ (pfx : String) (l : Bool),
        cp.print_me pfx l = pfx ++ connector l ++ "Host: " ++ cp.name ++ "\n") := by
  refine ⟨?_, ?_, ?_⟩
  · intro o name pfx l
    simp [Network.print_me, printItems, String.append_empty]
  · intro o name h
    unfold noTrailingPyWs at h
    cases hlast : name.data.getLast? with
    | none => rw [hlast] at h; simp at h
    | some c =>
        rw [hlast] at h
        simp only [Bool.not_eq_true'] at h
        have hnn : name.data ≠ [] := by
          intro hnil; rw [hnil] at hlast; simp at hlast
        have hpr : Network.print_me ⟨o, name, []⟩ "" true =
            ("Network: " ++ name) ++ "\n" := by
          simp [Network.print_me, printItems, String.append_empty]
        have hh : ("Network: " ++ name).data.head? = some 'N' := by
          rw [String.data_append]
          rfl
        have hl : ("Network: " ++ name).data.getLast? = some c := by
          rw [String.data_append]
          rw [List.getLast?_append_of_ne_nil _ hnn]
          exact hlast
        unfold Network.str
        rw [hpr, pyStrip_append_newline ("Network: " ++ name) 'N' c hh (by decide) hl h]
  · intro cp h1 h2 pfx l
    simp [Computer.print_me, Computer.items, h1, h2, printItems, String.append_empty]

/-- C5 (witness): the amended statement at a concrete name. -/
theorem c5_empty_render_witness :
    Network.str ⟨0, "misis", []⟩ = "Network: " ++ "misis" :=
  c5_empty_render.2.1 0 "misis" (by decide)

/-- Extending the ancestor-flag list by one flag extends the spec prefix
by the matching two-character segment. -/
theorem specAncestorPfx_concat (flags : List Bool) (l : Bool) :
    specAncestorPfx (flags ++ [l]) = childPfx (specAncestorPfx flags) l := by
  induction flags with
  | nil =>
      simp [specAncestorPfx, childPfx, String.empty_append, String.append_empty]
  | cons f rest ih =>
      simp [specAncestorPfx, childPfx, ih, String.append_assoc]

/-- The spec prefix has two characters per ancestor flag. -/
theorem specAncestorPfx_length :
    ∀ flags : List Bool, (specAncestorPfx flags).length = 2 * flags.length := by
  intro flags
  induction flags with
  | nil => rfl
  | cons f rest ih =>
      have hf : specAncestorPfx (f :: rest) =
          (if f then "  " else "| ") ++ specAncestorPfx rest := rfl
      rw [hf, String.length_append, ih, List.length_cons]
      cases f
      · have h : (if false then ("  " : String) else "| ").length = 2 := rfl
        rw [h]; omega
      · have h : (if true then ("  " : String) else "| ").length = 2 := rfl
        rw [h]; omega

/-- Trace entries of one computer child: called at the spec prefix of its
ancestor flags, and so is any inline disk row it contributes. -/
theorem compItemEntries_pfx (x : CompItem) (flags : List Bool) (is_last : Bool) :
    ∀ e ∈ x.entries flags (specAncestorPfx flags) is_last,
      e.2 = specAncestorPfx e.1 := by
  intro e he
  unfold CompItem.entries at he
  rcases List.mem_cons.mp he with rfl | hmem
  · rfl
  · cases x with
    | addr a => simp at hmem
    | comp c =>
        cases c with
        | cpu o cores nv => simp at hmem
        | memory o nv => simp at hmem
        | disk o st nv parts =>
            obtain ⟨p, hp, rfl⟩ := List.mem_map.mp hmem
            exact (specAncestorPfx_concat flags is_last).symm

/-- Trace entries of a computer's child loop: all at the spec prefix. -/
theorem itemsEntries_pfx :
    ∀ (items : List CompItem) (i len : Nat) (flags : List Bool),
      ∀ e ∈ itemsEntries items i len flags (specAncestorPfx flags),
        e.2 = specAncestorPfx e.1 := by
  intro items
  induction items with
  | nil => intro i len flags e he; simp [itemsEntries] at he
  | cons x rest ih =>
      intro i len flags e he
      simp only [itemsEntries] at he
      rcases List.mem_append.mp he with h1 | h2
      · exact compItemEntries_pfx x flags _ e h1
      · exact ih (i + 1) len flags e h2

/-- Trace entries of one computer (including its whole subtree). -/
theorem computerEntries_pfx (cp : Computer) (flags : List Bool) (is_last : Bool) :
    ∀ e ∈ cp.entries flags (specAncestorPfx flags) is_last,
      e.2 = specAncestorPfx e.1 := by
  intro e he
  unfold Computer.entries at he
  rcases List.mem_cons.mp he with rfl | hmem
  · rfl
  · rw [← specAncestorPfx_concat flags is_last] at hmem
    exact itemsEntries_pfx cp.items 0 _ (flags ++ [is_last]) e hmem

/-- Trace entries over the network's computer loop. -/
theorem computersEntries_pfx :
    ∀ (cs : List Computer) (i len : Nat),
      ∀ e ∈ computersEntries cs i len, e.2 = specAncestorPfx e.1 := by
  intro cs
  induction cs with
  | nil => intro i len e he; simp [computersEntries] at he
  | cons cp rest ih =>
      intro i len e he
      simp only [computersEntries] at he
      rcases List.mem_append.mp he with h1 | h2
      · exact computerEntries_pfx cp [] _ e h1
      · exact ih (i + 1) len e h2

/-- C3: parents extend their own prefix by exactly `"  "` (parent last)
or `"| "` (parent not last) for their children, and consequently, in a
rendering started at a network root, every traversal call below the root
receives as prefix one two-character segment per proper ancestor below
the root — `"| "` per non-last ancestor, `"  "` per last one (the root's
direct computers, with no such ancestor, get the empty prefix). -/
theorem c3_pfx_invariant :
    (∀ (pfx : String) (l : Bool),
      childPfx pfx l = pfx ++ (if l then "  " else "| ")) ∧
    (∀ (flags : List Bool) (l : Bool),
      childPfx (specAncestorPfx flags) l = specAncestorPfx (flags ++ [l])) ∧
    (∀ (net : Network), ∀ e ∈ net.entries,
      e.2 = specAncestorPfx e.1 ∧ e.2.length = 2 * e.1.length) := by
  refine ⟨fun _ _ => rfl, fun flags l => (specAncestorPfx_concat flags l).symm, ?_⟩
  intro net e he
  have h := computersEntries_pfx net.computers 0 net.computers.length e he
  exact ⟨h, by rw [h, specAncestorPfx_length]⟩

/-- C3 (witness): in the demo network the disk partition rows (below a
last computer and a last disk) are called with prefix `"    "`, the spec
prefix of ancestor flags `[true, true]`. -/
theorem c3_pfx_invariant_witness :
    ("    " : String) = specAncestorPfx [true, true] ∧
    ("    " : String).length = 2 * [true, true].length :=
  c3_pfx_invariant.2.2 demoNetwork ([true, true], "    ") (by decide)

/-- `printItems` renders equal text on pointwise render-equal lists. -/
theorem printItems_congr {α : Type} (pr : α → String → Bool → String)
    {xs ys : List α}
    (h : List.Forall₂ (fun x' x => ∀ pfx l, pr x' pfx l = pr x pfx l) xs ys) :
    ∀ (i len : Nat) (pfx : String),
      printItems pr xs i len pfx = printItems pr ys i len pfx := by
  induction h with
  | nil => intro i len pfx; rfl
  | cons hxy hrest ih =>
      intro i len pfx
      simp only [printItems]
      rw [hxy, ih]

/-- `Forall₂` is preserved by appending related lists. -/
theorem forall2_append {α : Type} {R : α → α → Prop} :
    ∀ {a b c d : List α}, List.Forall₂ R a b → List.Forall₂ R c d →
      List.Forall₂ R (a ++ c) (b ++ d) := by
  intro a b c d h1 h2
  induction h1 with
  | nil => exact h2
  | cons hxy hrest ih => exact .cons hxy ih

/-- `Forall₂` is transported along a map that respects the relations. -/
theorem forall2_map {α β : Type} (g : α → β) {P : α → α → Prop}
    {Q : β → β → Prop} (h : ∀ a b, P a b → Q (g a) (g b)) :
    ∀ {xs ys : List α}, List.Forall₂ P xs ys →
      List.Forall₂ Q (xs.map g) (ys.map g) := by
  intro xs ys hf
  induction hf with
  | nil => exact .nil
  | cons hab htl ih => exact .cons (h _ _ hab) ih

/-- Flattening singleton id lists is mapping the id function. -/
theorem flatten_map_singleton {α : Type} (g : α → Nat) :
    ∀ xs : List α, (xs.map fun a => [g a]).flatten = xs.map g := by
  intro xs
  induction xs with
  | nil => rfl
  | cons x rest ih => simp [ih]

/-- The cloning loop satisfies the clone contract elementwise: counter
monotone, all ids of the cloned items inside the consumed counter range,
and every cloned item renders as its source. -/
theorem cloneList_ok {α : Type} (f : α → Nat → α × Nat) (oidsF : α → List Nat)
    (pr : α → String → Bool → String) (h : CloneOk f oidsF pr) :
    ∀ (xs : List α) (ctr : Nat),
      ctr ≤ (cloneList f xs ctr).2 ∧
      (∀ o ∈ ((cloneList f xs ctr).1.map oidsF).flatten,
        ctr ≤ o ∧ o < (cloneList f xs ctr).2) ∧
      List.Forall₂ (fun x' x => ∀ pfx l, pr x' pfx l = pr x pfx l)
        (cloneList f xs ctr).1 xs := by
  intro xs
  induction xs with
  | nil =>
      intro ctr
      exact ⟨Nat.le_refl _, by simp [cloneList], .nil⟩
  | cons x rest ih =>
      intro ctr
      obtain ⟨hx1, hx2, hx3⟩ := h x ctr
      obtain ⟨hr1, hr2, hr3⟩ := ih (f x ctr).2
      have hshape : cloneList f (x :: rest) ctr =
          ((f x ctr).1 :: (cloneList f rest (f x ctr).2).1,
            (cloneList f rest (f x ctr).2).2) := rfl
      rw [hshape]
      refine ⟨Nat.le_trans hx1 hr1, ?_, .cons hx3 hr3⟩
      intro o ho
      simp only [List.map_cons, List.flatten_cons, List.mem_append] at ho
      rcases ho with h1 | h2
      · obtain ⟨ha, hb⟩ := hx2 o h1
        exact ⟨ha, Nat.lt_of_lt_of_le hb hr1⟩
      · obtain ⟨ha, hb⟩ := hr2 o h2
        exact ⟨Nat.le_trans hx1 ha, hb⟩

/-- `Address.clone` satisfies the clone contract. -/
theorem cloneOk_address :
    CloneOk Address.clone (fun a => [a.oid]) Address.print_me := by
  intro a ctr
  refine ⟨Nat.le_succ _, ?_, fun pfx l => rfl⟩
  intro o ho
  have : o = ctr := by simpa [Address.clone] using ho
  subst this
  exact ⟨Nat.le_refl _, Nat.lt_succ_self _⟩

/-- `Partition.clone` satisfies the clone contract. -/
theorem cloneOk_partition :
    CloneOk Partition.clone (fun p => [p.oid]) Partition.print_me := by
  intro p ctr
  refine ⟨Nat.le_succ _, ?_, fun pfx l => rfl⟩
  intro o ho
  have : o = ctr := by simpa [Partition.clone] using ho
  subst this
  exact ⟨Nat.le_refl _, Nat.lt_succ_self _⟩

/-- `Disk.clone`'s `add_partition` loop rebuilds the partition tuple
list in order. -/
theorem disk_fold_add_partition :
    ∀ (ps acc : List (Int × String)) (o : Nat) (st nv : Int),
      ps.foldl (fun (d : Component) p => d.add_partition p.1 p.2)
        (Component.disk o st nv acc) = Component.disk o st nv (acc ++ ps) := by
  intro ps
  induction ps with
  | nil => intro acc o st nv; simp
  | cons p rest ih =>
      intro acc o st nv
      simp only [List.foldl_cons]
      have hstep : (Component.disk o st nv acc).add_partition p.1 p.2 =
          .disk o st nv (acc ++ [p]) := by
        simp [Component.add_partition]
      rw [hstep, ih]
      simp

/-- `CPU.clone`, `Memory.clone` and `Disk.clone` satisfy the clone
contract. -/
theorem cloneOk_component :
    CloneOk Component.clone (fun c => [c.oid]) Component.print_me := by
  intro c ctr
  cases c with
  | cpu o cores nv =>
      refine ⟨Nat.le_succ _, ?_, fun pfx l => rfl⟩
      intro o' ho
      have : o' = ctr := by simpa [Component.clone, Component.oid] using ho
      subst this
      exact ⟨Nat.le_refl _, Nat.lt_succ_self _⟩
  | memory o nv =>
      refine ⟨Nat.le_succ _, ?_, fun pfx l => rfl⟩
      intro o' ho
      have : o' = ctr := by simpa [Component.clone, Component.oid] using ho
      subst this
      exact ⟨Nat.le_refl _, Nat.lt_succ_self _⟩
  | disk o st nv ps =>
      have hc : Component.clone (.disk o st nv ps) ctr =
          (.disk ctr st nv ps, ctr + 1) := by
        show (ps.foldl (fun (d : Component) p => d.add_partition p.1 p.2)
          (Component.disk ctr st nv []), ctr + 1) = _
        rw [disk_fold_add_partition ps [] ctr st nv]
        simp
      rw [hc]
      refine ⟨Nat.le_succ _, ?_, fun pfx l => rfl⟩
      intro o' ho
      have : o' = ctr := by simpa [Component.oid] using ho
      subst this
      exact ⟨Nat.le_refl _, Nat.lt_succ_self _⟩

/-- `Computer.clone` satisfies the clone contract. -/
theorem cloneOk_computer :
    CloneOk Computer.clone Computer.oids Computer.print_me := by
  intro cp ctr
  obtain ⟨ha1, ha2, ha3⟩ :=
    cloneList_ok Address.clone (fun a => [a.oid]) Address.print_me
      cloneOk_address cp.addresses (ctr + 1)
  obtain ⟨hc1, hc2, hc3⟩ :=
    cloneList_ok Component.clone (fun c => [c.oid]) Component.print_me
      cloneOk_component cp.components
      (cloneList Address.clone cp.addresses (ctr + 1)).2
  rw [flatten_map_singleton] at ha2 hc2
  have hsnd : (cp.clone ctr).2 =
      (cloneList Component.clone cp.components
        (cloneList Address.clone cp.addresses (ctr + 1)).2).2 := rfl
  have hfst : (cp.clone ctr).1 =
      ⟨ctr, cp.name, (cloneList Address.clone cp.addresses (ctr + 1)).1,
        (cloneList Component.clone cp.components
          (cloneList Address.clone cp.addresses (ctr + 1)).2).1⟩ := rfl
  refine ⟨?_, ?_, ?_⟩
  · rw [hsnd]; omega
  · intro o ho
    rw [hfst] at ho
    simp only [Computer.oids, List.mem_cons, List.mem_append] at ho
    rw [hsnd]
    rcases ho with rfl | ho'
    · omega
    rcases ho' with h1 | h2
    · have := ha2 o h1; omega
    · have := hc2 o h2; omega
  · intro pfx l
    have hname : ((cp.clone ctr).1).name = cp.name := rfl
    have hitems : Computer.items (cp.clone ctr).1 =
        (cloneList Address.clone cp.addresses (ctr + 1)).1.map CompItem.addr ++
          (cloneList Component.clone cp.components
            (cloneList Address.clone cp.addresses (ctr + 1)).2).1.map
              CompItem.comp := rfl
    have hitems2 : Computer.items cp =
        cp.addresses.map CompItem.addr ++
          cp.components.map CompItem.comp := rfl
    have hfa : List.Forall₂
        (fun x' x => ∀ p l, CompItem.print_me x' p l = CompItem.print_me x p l)
        ((cloneList Address.clone cp.addresses (ctr + 1)).1.map CompItem.addr)
        (cp.addresses.map CompItem.addr) :=
      forall2_map CompItem.addr (fun a b hab => hab) ha3
    have hfc : List.Forall₂
        (fun x' x => ∀ p l, CompItem.print_me x' p l = CompItem.print_me x p l)
        ((cloneList Component.clone cp.components
          (cloneList Address.clone cp.addresses (ctr + 1)).2).1.map
            CompItem.comp)
        (cp.components.map CompItem.comp) :=
      forall2_map CompItem.comp (fun a b hab => hab) hc3
    have hall := forall2_append hfa hfc
    unfold Computer.print_me
    rw [hname, hitems, hitems2, printItems_congr CompItem.print_me hall,
      hall.length_eq]

/-- `Network.clone` satisfies the clone contract. -/
theorem cloneOk_network :
    CloneOk Network.clone Network.oids Network.print_me := by
  intro net ctr
  obtain ⟨h1, h2, h3⟩ :=
    cloneList_ok Computer.clone Computer.oids Computer.print_me
      cloneOk_computer net.computers (ctr + 1)
  have hsnd : (net.clone ctr).2 =
      (cloneList Computer.clone net.computers (ctr + 1)).2 := rfl
  have hfst : (net.clone ctr).1 =
      ⟨ctr, net.name, (cloneList Computer.clone net.computers (ctr + 1)).1⟩ :=
    rfl
  refine ⟨?_, ?_, ?_⟩
  · rw [hsnd]; omega
  · intro o ho
    rw [hfst] at ho
    simp only [Network.oids, List.mem_cons] at ho
    rw [hsnd]
    rcases ho with rfl | ho'
    · omega
    · have := h2 o ho'; omega
  · intro pfx l
    have hname : ((net.clone ctr).1).name = net.name := rfl
    have hcs : ((net.clone ctr).1).computers =
        (cloneList Computer.clone net.computers (ctr + 1)).1 := rfl
    unfold Network.print_me
    rw [hname, hcs, printItems_congr Computer.print_me h3, h3.length_eq]

/-- Every node type's `clone` satisfies the clone contract. -/
theorem cloneOk_anyNode :
    CloneOk AnyNode.clone AnyNode.oids AnyNode.print_me := by
  intro n ctr
  cases n with
  | ofAddress a => exact cloneOk_address a ctr
  | ofPartition p => exact cloneOk_partition p ctr
  | ofComponent c => exact cloneOk_component c ctr
  | ofComputer cp => exact cloneOk_computer cp ctr
  | ofNetwork net => exact cloneOk_network net ctr

/-- A node's own object id is among its subtree's ids. -/
theorem anyNode_oid_mem_oids : ∀ n : AnyNode, n.oid ∈ n.oids := by
  intro n
  cases n with
  | ofAddress a => exact List.mem_cons_self _ _
  | ofPartition p => exact List.mem_cons_self _ _
  | ofComponent c => cases c <;> exact List.mem_cons_self _ _
  | ofComputer cp => exact List.mem_cons_self _ _
  | ofNetwork net => exact List.mem_cons_self _ _

/-- C4: for every node type (address, partition, CPU, memory, disk,
computer, network — and a `BasicCollection` of such printable items),
cloning with a fresh id counter yields a new object (different root id),
a deep copy (no object of the clone's subtree is an object of the
original's subtree, so mutating the clone can never touch the original),
and a clone that renders exactly the original's text for every prefix
and `is_last`. -/
theorem c4_clone_deep :
    (∀ (n : AnyNode) (ctr : Nat), (∀ o ∈ n.oids, o < ctr) →
      ((n.clone ctr).1.oid ≠ n.oid ∧
       (∀ o ∈ (n.clone ctr).1.oids, o ∉ n.oids) ∧
       (∀ pfx l, (n.clone ctr).1.print_me pfx l = n.print_me pfx l))) ∧
    (∀ (col : BasicCollection AnyNode) (ctr : Nat),
      (∀ o ∈ col.oids AnyNode.oids, o < ctr) →
      ((col.clone AnyNode.clone ctr).1.oid ≠ col.oid ∧
       (∀ o ∈ (col.clone AnyNode.clone ctr).1.oids AnyNode.oids,
         o ∉ col.oids AnyNode.oids) ∧
       (∀ pfx l,
         (col.clone AnyNode.clone ctr).1.print_me AnyNode.print_me pfx l =
           col.print_me AnyNode.print_me pfx l))) := by
  constructor
  · intro n ctr hfresh
    obtain ⟨h1, h2, h3⟩ := cloneOk_anyNode n ctr
    have hroot := h2 _ (anyNode_oid_mem_oids (n.clone ctr).1)
    have hobound := hfresh n.oid (anyNode_oid_mem_oids n)
    refine ⟨by omega, ?_, h3⟩
    intro o ho hcontra
    have hb1 := h2 o ho
    have hb2 := hfresh o hcontra
    omega
  · intro col ctr hfresh
    obtain ⟨h1, h2, h3⟩ :=
      cloneList_ok AnyNode.clone AnyNode.oids AnyNode.print_me
        cloneOk_anyNode col.items (ctr + 1)
    have hcoid := hfresh col.oid (List.mem_cons_self _ _)
    have hoid : (col.clone AnyNode.clone ctr).1.oid = ctr := rfl
    refine ⟨?_, ?_, ?_⟩
    · rw [hoid]; omega
    · intro o ho hcontra
      have hfr := hfresh o hcontra
      have hos : (col.clone AnyNode.clone ctr).1.oids AnyNode.oids =
          ctr :: ((cloneList AnyNode.clone col.items (ctr + 1)).1.map
            AnyNode.oids).flatten := rfl
      rw [hos] at ho
      rcases List.mem_cons.mp ho with rfl | ho'
      · omega
      · have := h2 o ho'; omega
    · intro pfx l
      have hL : (col.clone AnyNode.clone ctr).1.print_me AnyNode.print_me pfx l =
          printItems AnyNode.print_me
            (cloneList AnyNode.clone col.items (ctr + 1)).1 0
            ((cloneList AnyNode.clone col.items (ctr + 1)).1).length pfx := rfl
      have hR : col.print_me AnyNode.print_me pfx l =
          printItems AnyNode.print_me col.items 0 col.items.length pfx := rfl
      rw [hL, hR, printItems_congr AnyNode.print_me h3, h3.length_eq]

/-- C4 (witness): cloning the §8 network (all ids below 9) at counter 9
gives a different root object that renders the same text. -/
theorem c4_clone_deep_witness :
    (AnyNode.clone (.ofNetwork demoNetwork) 9).1.oid ≠
      (AnyNode.ofNetwork demoNetwork).oid ∧
    (AnyNode.clone (.ofNetwork demoNetwork) 9).1.print_me "" true =
      (AnyNode.ofNetwork demoNetwork).print_me "" true :=
  ⟨(c4_clone_deep.1 (.ofNetwork demoNetwork) 9 (by decide)).1,
   (c4_clone_deep.1 (.ofNetwork demoNetwork) 9 (by decide)).2.2 "" true⟩

/-- The sink-threaded child loop returns the children unchanged and
appends exactly the pure rendering to the sink, provided each child's
threaded printer does so. -/
theorem printItemsSt_spec {α : Type}
    (prSt : α → String → String → Bool → α × String)
    (pr : α → String → Bool → String)
    (h : ∀ x os p l, prSt x os p l = (x, os ++ pr x p l)) :
    ∀ (xs : List α) (i len : Nat) (os pfx : String),
      printItemsSt prSt xs i len os pfx =
        (xs, os ++ printItems pr xs i len pfx) := by
  intro xs
  induction xs with
  | nil =>
      intro i len os pfx
      simp [printItemsSt, printItems, String.append_empty]
  | cons x rest ih =>
      intro i len os pfx
      simp only [printItemsSt, printItems]
      rw [h x os pfx (isLastFlag i len)]
      simp only []
      rw [ih]
      simp [String.append_assoc]

/-- The sink-threaded inline partition loop returns the tuples unchanged
and appends exactly the pure rendering. -/
theorem printPartitionsSt_spec :
    ∀ (ps : List (Int × String)) (i len : Nat) (os npfx : String),
      Disk.printPartitionsSt ps i len os npfx =
        (ps, os ++ Disk.printPartitions ps i len npfx) := by
  intro ps
  induction ps with
  | nil =>
      intro i len os npfx
      simp [Disk.printPartitionsSt, Disk.printPartitions, String.append_empty]
  | cons p rest ih =>
      intro i len os npfx
      cases p with
      | mk size name =>
          simp only [Disk.printPartitionsSt, Disk.printPartitions]
          rw [ih]
          simp [String.append_assoc]

/-- Sink-threaded `Address.print_me`: frame and append-only write. -/
theorem address_print_st_spec :
    ∀ (a : Address) (os pfx : String) (l : Bool),
      a.print_st os pfx l = (a, os ++ a.print_me pfx l) := by
  intro a os pfx l
  rfl

/-- Sink-threaded `Partition.print_me`: frame and append-only write. -/
theorem partition_print_st_spec :
    ∀ (p : Partition) (os pfx : String) (l : Bool),
      p.print_st os pfx l = (p, os ++ p.print_me pfx l) := by
  intro p os pfx l
  rfl

/-- Sink-threaded component printing: frame and append-only write. -/
theorem component_print_st_spec :
    ∀ (c : Component) (os pfx : String) (l : Bool),
      c.print_st os pfx l = (c, os ++ c.print_me pfx l) := by
  intro c os pfx l
  cases c with
  | cpu o cores nv => rfl
  | memory o nv => rfl
  | disk o st nv ps =>
      simp only [Component.print_st]
      rw [printPartitionsSt_spec]
      simp only []
      simp [Component.print_me, String.append_assoc]

/-- Sink-threaded `CompItem` printing: frame and append-only write. -/
theorem compItem_print_st_spec :
    ∀ (x : CompItem) (os pfx : String) (l : Bool),
      x.print_st os pfx l = (x, os ++ x.print_me pfx l) := by
  intro x os pfx l
  cases x with
  | addr a =>
      simp only [CompItem.print_st]
      rw [address_print_st_spec]
      rfl
  | comp c =>
      simp only [CompItem.print_st]
      rw [component_print_st_spec]
      rfl

/-- Rendering the mapped address children equals rendering the
addresses. -/
theorem printItems_map_addr :
    ∀ (A : List Address) (i len : Nat) (p : String),
      printItems CompItem.print_me (A.map CompItem.addr) i len p =
        printItems Address.print_me A i len p := by
  intro A
  induction A with
  | nil => intro i len p; rfl
  | cons a rest ih =>
      intro i len p
      simp only [List.map_cons, printItems]
      rw [ih]
      rfl

/-- Rendering the mapped component children equals rendering the
components. -/
theorem printItems_map_comp :
    ∀ (C : List Component) (i len : Nat) (p : String),
      printItems CompItem.print_me (C.map CompItem.comp) i len p =
        printItems Component.print_me C i len p := by
  intro C
  induction C with
  | nil => intro i len p; rfl
  | cons c rest ih =>
      intro i len p
      simp only [List.map_cons, printItems]
      rw [ih]
      rfl

/-- The combined addresses-then-components rendering splits into the
address segment followed by the component segment, the index running on
through the concatenation. -/
theorem printItems_items :
    ∀ (A : List Address) (C : List Component) (i len : Nat) (p : String),
      printItems CompItem.print_me
          (A.map CompItem.addr ++ C.map CompItem.comp) i len p =
        printItems Address.print_me A i len p ++
          printItems Component.print_me C (i + A.length) len p := by
  intro A C
  induction A with
  | nil =>
      intro i len p
      simp only [List.map_nil, List.nil_append, List.length_nil, Nat.add_zero]
      rw [printItems_map_comp]
      have h0 : printItems Address.print_me [] i len p = "" := rfl
      rw [h0, String.empty_append]
  | cons a rest ih =>
      intro i len p
      simp only [List.map_cons, List.cons_append, printItems, List.length_cons,
        List.append_eq]
      rw [ih (i + 1), String.append_assoc]
      have hidx : i + 1 + rest.length = i + (rest.length + 1) := by omega
      rw [hidx]
      rfl

/-- Sink-threaded `Computer.print_me`: frame and append-only write. -/
theorem computer_print_st_spec :
    ∀ (cp : Computer) (os pfx : String) (l : Bool),
      cp.print_st os pfx l = (cp, os ++ cp.print_me pfx l) := by
  intro cp os pfx l
  simp only [Computer.print_st]
  rw [printItemsSt_spec Address.print_st Address.print_me address_print_st_spec]
  simp only []
  rw [printItemsSt_spec Component.print_st Component.print_me
    component_print_st_spec]
  simp only []
  have hsplit : printItems CompItem.print_me (Computer.items cp) 0
      (Computer.items cp).length (childPfx pfx l) =
      printItems Address.print_me cp.addresses 0
        (cp.addresses.length + cp.components.length) (childPfx pfx l) ++
      printItems Component.print_me cp.components cp.addresses.length
        (cp.addresses.length + cp.components.length) (childPfx pfx l) := by
    have hlen : (Computer.items cp).length =
        cp.addresses.length + cp.components.length := by
      simp [Computer.items]
    have hexp : Computer.items cp =
        cp.addresses.map CompItem.addr ++ cp.components.map CompItem.comp := rfl
    rw [hlen, hexp, printItems_items, Nat.zero_add]
  have hpm : Computer.print_me cp pfx l =
      pfx ++ connector l ++ "Host: " ++ cp.name ++ "\n" ++
        printItems CompItem.print_me (Computer.items cp) 0
          (Computer.items cp).length (childPfx pfx l) := rfl
  rw [hpm, hsplit]
  have hfst : (⟨cp.oid, cp.name, cp.addresses, cp.components⟩ : Computer) =
      cp := rfl
  rw [hfst]
  simp [String.append_assoc]

/-- Sink-threaded `Network.print_me`: frame and append-only write. -/
theorem network_print_st_spec :
    ∀ (net : Network) (os pfx : String) (l : Bool),
      net.print_st os pfx l = (net, os ++ net.print_me pfx l) := by
  intro net os pfx l
  simp only [Network.print_st]
  rw [printItemsSt_spec Computer.print_st Computer.print_me
    computer_print_st_spec]
  simp only []
  have hfst : (⟨net.oid, net.name, net.computers⟩ : Network) = net := rfl
  rw [hfst]
  have hpm : Network.print_me net pfx l =
      "Network: " ++ net.name ++ "\n" ++
        printItems Computer.print_me net.computers 0 net.computers.length "" :=
    rfl
  rw [hpm]
  simp [String.append_assoc]

/-- Sink-threaded polymorphic printing: frame and append-only write. -/
theorem anyNode_print_st_spec :
    ∀ (n : AnyNode) (os pfx : String) (l : Bool),
      n.print_st os pfx l = (n, os ++ n.print_me pfx l) := by
  intro n os pfx l
  cases n with
  | ofAddress a =>
      simp only [AnyNode.print_st]
      rw [address_print_st_spec]
      rfl
  | ofPartition p =>
      simp only [AnyNode.print_st]
      rw [partition_print_st_spec]
      rfl
  | ofComponent c =>
      simp only [AnyNode.print_st]
      rw [component_print_st_spec]
      rfl
  | ofComputer cp =>
      simp only [AnyNode.print_st]
      rw [computer_print_st_spec]
      rfl
  | ofNetwork net =>
      simp only [AnyNode.print_st]
      rw [network_print_st_spec]
      rfl

/-- Sink-threaded collection printing: frame and append-only write. -/
theorem collection_print_st_spec :
    ∀ (col : BasicCollection AnyNode) (os pfx : String) (l : Bool),
      col.print_st AnyNode.print_st os pfx l =
        (col, os ++ col.print_me AnyNode.print_me pfx l) := by
  intro col os pfx l
  simp only [BasicCollection.print_st]
  rw [printItemsSt_spec AnyNode.print_st AnyNode.print_me anyNode_print_st_spec]
  simp only []
  have hfst : (⟨col.oid, col.items⟩ : BasicCollection AnyNode) = col := rfl
  rw [hfst]
  rfl

/-- C9: rendering mutates nothing and never fails — the sink-threaded
translation of every `print_me` (each node type and a collection of
nodes) is a total function returning the node it was called on with all
fields and owned child lists unchanged, and the sink extended, append
only, by exactly the pure rendering. -/
theorem c9_print_me_frame :
    (∀ (n : AnyNode) (os pfx : String) (l : Bool),
      n.print_st os pfx l = (n, os ++ n.print_me pfx l)) ∧
    (∀ (col : BasicCollection AnyNode) (os pfx : String) (l : Bool),
      col.print_st AnyNode.print_st os pfx l =
        (col, os ++ col.print_me AnyNode.print_me pfx l)) :=
  ⟨anyNode_print_st_spec, collection_print_st_spec⟩
